import Mathlib

/-!
Verification of the portfolio repository: the SVG outline sanitizer
(modelled from the specification, since src/lib/svg is not in the tree),
the declarative data modules, and the deploy script.
-/

namespace Portfolio

/-- Whitespace characters recognised between markup tokens. -/
def isWs (c : Char) : Bool :=
  c == ' ' || c == '\n' || c == '\t' || c == '\r'

/-- Characters allowed in an element or attribute name. -/
def nameChar (c : Char) : Bool :=
  c.isAlpha || c.isDigit || c == '-' || c == '_' || c == ':' || c == '.'

/-- Characters allowed inside a double-quoted attribute value. -/
def valueChar (c : Char) : Bool :=
  !(c == '"' || c == '<' || c == '>')

/-- An attribute: a name and a double-quoted value. -/
structure Attr where
  name : String
  value : String
  deriving DecidableEq, Repr

mutual
/-- Element tree of inline vector markup. -/
inductive Node where
  | elem (tag : String) (attrs : List Attr) (children : NodeList)
  deriving Repr
inductive NodeList where
  | nil
  | cons (head : Node) (tail : NodeList)
  deriving Repr
end

/-- Errors of the sanitizer. -/
inductive SvgError where
  | malformedMarkup
  | invalidParameter
  deriving DecidableEq, Repr

/-- Parse the attribute list of an opening tag. -/
def parseAttrs : Nat → List Char → Option (List Attr × List Char)
  | 0, _ => none
  | fuel + 1, cs =>
    match cs.dropWhile isWs with
    | [] => some ([], [])
    | c :: cs1 =>
      if nameChar c then
        match (c :: cs1).dropWhile nameChar with
        | '=' :: '"' :: cs3 =>
          match cs3.dropWhile valueChar with
          | '"' :: cs5 =>
            match parseAttrs fuel cs5 with
            | some (as, cs6) =>
              some (⟨String.mk ((c :: cs1).takeWhile nameChar),
                     String.mk (cs3.takeWhile valueChar)⟩ :: as, cs6)
            | none => none
          | _ => none
        | _ => none
      else some ([], c :: cs1)

mutual
/-- Parse one element: an opening tag, its children, and the matching close tag. -/
def parseNode : Nat → List Char → Option (Node × List Char)
  | 0, _ => none
  | fuel + 1, cs =>
    match cs with
    | '<' :: cs1 =>
      match cs1.takeWhile nameChar with
      | [] => none
      | c :: nm1 =>
        match parseAttrs fuel (cs1.dropWhile nameChar) with
        | some (as, cs3) =>
          match cs3 with
          | '/' :: '>' :: cs4 => some (⟨String.mk (c :: nm1), as, .nil⟩, cs4)
          | '>' :: cs4 =>
            match parseChildren fuel cs4 with
            | some (ns, cs5) =>
              match cs5 with
              | '<' :: '/' :: cs6 =>
                if cs6.takeWhile nameChar = c :: nm1 then
                  match (cs6.dropWhile nameChar).dropWhile isWs with
                  | '>' :: cs8 => some (⟨String.mk (c :: nm1), as, ns⟩, cs8)
                  | _ => none
                else none
              | _ => none
            | none => none
          | _ => none
        | none => none
    | _ => none

/-- Parse a sequence of sibling elements, stopping at a closing tag. -/
def parseChildren : Nat → List Char → Option (NodeList × List Char)
  | 0, _ => none
  | fuel + 1, cs =>
    match cs.dropWhile isWs with
    | '<' :: c2 :: cs2 =>
      if c2 = '/' then some (.nil, '<' :: c2 :: cs2)
      else
        match parseNode fuel ('<' :: c2 :: cs2) with
        | some (n, cs3) =>
          match parseChildren fuel cs3 with
          | some (ns, cs4) => some (.cons n ns, cs4)
          | none => none
        | none => none
    | _ => none
end

/-- Parse a whole markup string: one root element, surrounded only by whitespace. -/
def parseSvg (s : String) : Option Node :=
  match parseNode ((s.data.dropWhile isWs).length + 1) (s.data.dropWhile isWs) with
  | some (n, rest) => if rest.dropWhile isWs = [] then some n else none
  | none => none

/-- Serialize one attribute as a leading space, name, equals, quoted value. -/
def serAttr (a : Attr) : List Char :=
  ' ' :: a.name.data ++ '=' :: '"' :: a.value.data ++ ['"']

/-- Serialize an attribute list. -/
def serAttrs : List Attr → List Char
  | [] => []
  | a :: as => serAttr a ++ serAttrs as

mutual
/-- Serialize an element with explicit open and close tags. -/
def serNode : Node → List Char
  | .elem tag as ns =>
    '<' :: tag.data ++ serAttrs as ++ '>' :: serList ns ++ '<' :: '/' :: tag.data ++ ['>']
/-- Serialize a sequence of sibling elements. -/
def serList : NodeList → List Char
  | .nil => []
  | .cons n ns => serNode n ++ serList ns
end

/-- Serialize a tree back to a markup string. -/
def serialize (t : Node) : String := String.mk (serNode t)

/-- Presentation attributes stripped by the sanitizer. -/
def dropAttr (nm : String) : Bool :=
  nm == "fill" || nm == "style" || nm == "id" || nm == "clip-path" || nm == "stroke-width"

/-- The character of a decimal digit. -/
def digitChar (n : Nat) : Char := Char.ofNat (48 + n)

/-- Decimal digits of a natural number (fuel-driven). -/
def natChars : Nat → Nat → List Char
  | 0, _ => []
  | fuel + 1, n =>
    if n < 10 then [digitChar n] else natChars fuel (n / 10) ++ [digitChar (n % 10)]

/-- Decimal string of a natural number. -/
def natStr (n : Nat) : String := String.mk (natChars (n + 1) n)

/-- Rewrite the attribute list of one element: drop presentation attributes,
then force fill to none and stroke-width to the supplied width. -/
def sanitizeAttrs (w : Int) (as : List Attr) : List Attr :=
  as.filter (fun a => !(dropAttr a.name)) ++
    [⟨"fill", "none"⟩, ⟨"stroke-width", natStr w.toNat⟩]

mutual
/-- Sanitize every element of the tree. -/
def sanitizeNode (w : Int) : Node → Node
  | .elem tag as ns => .elem tag (sanitizeAttrs w as) (sanitizeList w ns)
def sanitizeList (w : Int) : NodeList → NodeList
  | .nil => .nil
  | .cons n ns => .cons (sanitizeNode w n) (sanitizeList w ns)
end

/-- Modelled from the spec: the SVG outline sanitizer (src/lib/svg, absent here). -/
def sanitizeToOutline (rawMarkup : String) (strokeWidth : Int) : Except SvgError String :=
  if strokeWidth ≤ 0 then .error .invalidParameter
  else
    match parseSvg rawMarkup with
    | none => .error .malformedMarkup
    | some t => .ok (serialize (sanitizeNode strokeWidth t))

/-- The value of a named attribute on one element's own attribute list. -/
def getAttr (t : Node) (nm : String) : Option String :=
  match t with
  | .elem _ as _ =>
    match as.find? (fun a => a.name == nm) with
    | some a => some a.value
    | none => none

mutual
/-- Every element of the tree, root first. -/
def allElems : Node → List Node
  | .elem tag as ns => .elem tag as ns :: allElemsList ns
def allElemsList : NodeList → List Node
  | .nil => []
  | .cons n ns => allElems n ++ allElemsList ns
end

instance : DecidableEq (Except SvgError String) := fun x y =>
  match x, y with
  | .ok a, .ok b =>
    if h : a = b then .isTrue (by rw [h]) else .isFalse (fun hc => h (Except.ok.inj hc))
  | .error a, .error b =>
    if h : a = b then .isTrue (by rw [h]) else .isFalse (fun hc => h (Except.error.inj hc))
  | .ok a, .error b => .isFalse (fun hc => Except.noConfusion hc)
  | .error a, .ok b => .isFalse (fun hc => Except.noConfusion hc)

/-- Condition on the tail so that attribute scanning stops exactly there. -/
def attrStop : List Char → Prop
  | [] => True
  | c :: _ => isWs c = false ∧ nameChar c = false

/-- Well-formed element and attribute names. -/
def goodName (s : String) : Bool := !s.data.isEmpty && s.data.all nameChar

/-- Well-formed attribute values. -/
def goodValue (s : String) : Bool := s.data.all valueChar

def wfAttr (a : Attr) : Bool := goodName a.name && goodValue a.value

mutual
/-- Trees whose names and values use only the parser's character classes. -/
def wfNode : Node → Bool
  | .elem tag as ns => goodName tag && as.all wfAttr && wfList ns
def wfList : NodeList → Bool
  | .nil => true
  | .cons n ns => wfNode n && wfList ns
end

mutual
/-- Node count plus attribute count: a fuel lower bound for the parser. -/
def sizeN : Node → Nat
  | .elem _ as ns => 1 + as.length + sizeL ns
def sizeL : NodeList → Nat
  | .nil => 0
  | .cons n ns => 1 + sizeN n + sizeL ns
end

mutual
/-- The structural and geometric skeleton: tags, nesting, and d attributes only. -/
def geomNode : Node → Node
  | .elem tag as ns => .elem tag (as.filter (fun a => a.name == "d")) (geomList ns)
def geomList : NodeList → NodeList
  | .nil => .nil
  | .cons n ns => .cons (geomNode n) (geomList ns)
end

/-- Geometry of a tree, rendered as a string for comparison. -/
def geometry (t : Node) : String := serialize (geomNode t)

/-- All identifier and clip-path cross-reference attribute values in a tree. -/
def crossRefs (t : Node) : List String :=
  (allElems t).filterMap (fun e => getAttr e "id") ++
    (allElems t).filterMap (fun e => getAttr e "clip-path")

/-- Modelled from the spec: raw logo markup loaded from a bundled asset
(../assets/logos, absent here), with presentation attributes typical of a
design-tool export. -/
def OddleIcon : String :=
  "<svg viewBox=\"0 0 48 48\"><path id=\"oddle-a\" fill=\"#7D30F5\" d=\"M24 4a20 20 0 100 40 20 20 0 000-40z\"/></svg>"

/-- Modelled from the spec: raw logo markup loaded from a bundled asset. -/
def TagManagerIcon : String :=
  "<svg viewBox=\"0 0 48 48\"><path id=\"tm-a\" fill=\"#246FDB\" d=\"M6 24L24 6l18 18-18 18z\"/></svg>"

/-- Modelled from the spec: raw logo markup loaded from a bundled asset. -/
def MenuWiseIcon : String :=
  "<svg viewBox=\"0 0 48 48\"><path id=\"mw-a\" fill=\"#12B886\" d=\"M8 8h32v8H8zM8 20h32v8H8zM8 32h32v8H8z\"/></svg>"

/-- Modelled from the spec: raw logo markup loaded from a bundled asset. -/
def YourRentalsIcon : String :=
  "<svg viewBox=\"0 0 48 48\"><path id=\"yr-a\" fill=\"#FA5252\" d=\"M24 6l18 14v22H6V20z\"/></svg>"

/-- Modelled from the spec: raw logo markup loaded from a bundled asset. -/
def ZaloIcon : String :=
  "<svg viewBox=\"0 0 48 48\"><path id=\"za-a\" fill=\"#0068FF\" d=\"M8 10h32v24H20l-8 8v-8H8z\"/></svg>"

/-- A project listing entry (src/data/projects.ts). -/
structure Project where
  title : String
  techStack : String
  description : String
  ctaText : String
  ctaLink : String
  icon : String
  deriving DecidableEq, Repr

/-- The project listings data table (src/data/projects.ts). -/
def projects : List Project := [
  { title := "MenuWise - Recipe Management Platform",
    techStack := "NestJS • Next.js • React • PostgreSQL • Docker • Python ML",
    description := "Complete platform rebuild with recipe weight calculations, nested cost structures, and intelligent ingredient matching. Rescued from 4-year development failure to working system.",
    ctaText := "View Demo",
    ctaLink := "https://staging.menuwise.com",
    icon := MenuWiseIcon },
  { title := "Your.Rentals - Property Management Platform",
    techStack := "NestJS • React • AngularJS • PostgreSQL • AWS • Kubernetes",
    description := "Comprehensive vacation rental management platform with Stripe/PayPal payments, Booking.com/AirBNB integrations, and Spanish guest registration systems.",
    ctaText := "Try Platform",
    ctaLink := "https://app.your.rentals/sign-up/email",
    icon := YourRentalsIcon },
  { title := "Oddle Reservation System",
    techStack := "NodeJS • NextJS • TypeScript • AWS • PHP Laravel",
    description := "High-performance reservation system serving 1000+ merchants, handling 15,000 requests/minute during peak events with Google Maps Booking API integration.",
    ctaText := "Learn More",
    ctaLink := "https://www.oddle.me/sg/products/restaurant-reservation-system",
    icon := OddleIcon },
  { title := "GoClass.vn - Online Tutoring Platform",
    techStack := "NodeJS • VueJS • WebRTC • WebSocket • MongoDB • AWS",
    description := "MVP built from scratch in 3 months with real-time chat, video conferencing, learning analytics, and cross-platform mobile apps (iOS/Android).",
    ctaText := "View Project",
    ctaLink := "#",
    icon := TagManagerIcon },
  { title := "Zalo Media Crawler System",
    techStack := "Java • NodeJS • RabbitMQ • SQL Server • Microservices",
    description := "Scalable distributed crawler serving 9+ billion requests over 6 months with 99.99% availability. Flexible parsing system supporting 500+ content sources.",
    ctaText := "Case Study",
    ctaLink := "#",
    icon := ZaloIcon },
  { title := "Korean Educational Platform",
    techStack := "Java • PHP • VueJS • Moodle • MySQL • MongoDB",
    description := "Led development of educational platforms for Korean market. Helped achieve Moodle Silver Partner certification through delivery excellence and technical innovation.",
    ctaText := "Visit Platform",
    ctaLink := "https://www.unioncloud.org/",
    icon := TagManagerIcon }]

/-- An education history entry (src/data/studies.ts). -/
structure StudyItem where
  title : String
  institution : String
  description : String
  tags : List String
  deriving DecidableEq, Repr

/-- The education data table (src/data/studies.ts). -/
def studies : List StudyItem := [
  { title := "B.S. in Computer Science",
    institution := "Hanoi University of Science and Technology (HUST)",
    description := "Information System Department (SOICT). Focused on Information System Development Techniques and Technologies, Distributed System Development, Machine Learning, Information Retrieval, and Database systems.",
    tags := ["Information Systems", "Distributed Systems", "Machine Learning",
      "Information Retrieval", "Natural Language Processing", "Image Processing",
      "Database", "Advanced Systems Programming"] }]

/-- A work history entry (the work data module). -/
structure WorkItem where
  title : String
  company : String
  region : String
  description : String
  technologies : List String
  deriving DecidableEq, Repr

/-- The work history data table (the work data module). -/
def work : List WorkItem := [
  { title := "Lead Software Developer",
    company := "MenuWise",
    region := "Hanoi, Vietnam",
    description := "Rescued project from 4-year development failure, delivering first feasible working system. Architected complete platform rebuild focusing on core recipe weight calculations and ingredient matching algorithms. Collaborated with dietitians and ML developers to transform domain expertise into scalable technical solutions.",
    technologies := ["Docker", "PostgreSQL", "NestJS", "Next.js", "React", "Python", "Playwright"] },
  { title := "Lead Software Developer",
    company := "Your.Rentals",
    region := "Spain (Remote)",
    description := "Led team of 3 developers + 1 QA using Scrum methodology, delivered high-quality services with minimal user incidents. Architected integrations with Stripe, PayPal, Booking.com, and AirBNB. Managed feature operations maintaining 99%+ uptime.",
    technologies := ["AWS", "Docker", "Kubernetes", "ArgoCD", "NestJS", "TypeScript",
      "AngularJS", "ReactJS", "PostgreSQL"] },
  { title := "Tech Lead",
    company := "Fetch Technology Hanoi",
    region := "Hanoi, Vietnam",
    description := "Led 7-member team delivering reservation system serving 1000+ merchants across multiple regions. Architected system handling 15,000 requests/minute during peak restaurant events. Integrated Google Maps Booking API with strict performance requirements.",
    technologies := ["NodeJS", "NextJS", "TypeScript", "AWS", "EC2", "RDS", "PHP",
      "Laravel", "GitLab CI/CD"] },
  { title := "Senior Software Engineer",
    company := "Videa Edtech",
    region := "Hanoi, Vietnam",
    description := "Architected and built MVP from scratch in 3 months as solo developer. Built real-time chat and video conference system for online classroom sessions. Led 4-member team delivering Korean educational platform projects.",
    technologies := ["NodeJS", "C#", ".NET", "VueJS", "WebRTC", "WebSocket", "MongoDB",
      "AWS", "Java", "PHP", "MySQL"] },
  { title := "Software Engineer",
    company := "Zalo",
    region := "Hanoi, Vietnam",
    description := "Architected scalable crawler system serving 9+ billion requests over 6 months with 99.99% availability. Built flexible content parsing system supporting 500+ content sources. Implemented microservices architecture splitting parsing logic into adaptable services.",
    technologies := ["Java", "NodeJS", "Memcached", "RabbitMQ", "SQL Server", "Thrift",
      "ZiDB", "Linux"] }]

/-- Modelled from the spec: raw icon markup loaded from a bundled asset
(../assets/icons/job-title-icon.svg, absent here), carrying fill colors,
per-element stroke widths and a fixed identifier, as the spec describes
raw icon markup. -/
def jobIconRaw : String :=
  "<svg viewBox=\"0 0 24 24\"><path id=\"job-a\" fill=\"#FFD43B\" stroke-width=\"1.5\" d=\"M4 7h16v13H4z\"/><path fill=\"#000\" stroke-width=\"3\" d=\"M9 7V5h6v2\"/></svg>"

/-- Modelled from the spec: raw icon markup loaded from a bundled asset
(../assets/icons/company-icon.svg, absent here). -/
def companyIconRaw : String :=
  "<svg viewBox=\"0 0 24 24\"><path id=\"co-a\" fill=\"#4DABF7\" stroke-width=\"2\" d=\"M5 21V5h14v16\"/><path fill=\"#111\" d=\"M9 9h2v2H9z\"/></svg>"

/-- Modelled from the spec: raw icon markup loaded from a bundled asset
(../assets/icons/location-icon.svg, absent here). -/
def locationIconRaw : String :=
  "<svg viewBox=\"0 0 24 24\"><path id=\"loc-a\" fill=\"#FF6B6B\" stroke-width=\"0.8\" d=\"M12 2a7 7 0 017 7c0 5-7 13-7 13S5 14 5 9a7 7 0 017-7z\"/></svg>"

/-- The record of pre-sanitized work icons (the work data module). -/
structure WorkIcons where
  job : Except SvgError String
  company : Except SvgError String
  location : Except SvgError String

/-- The module-level constant of sanitized icons, computed once at load. -/
def workIcons : WorkIcons :=
  { job := sanitizeToOutline jobIconRaw 15,
    company := sanitizeToOutline companyIconRaw 15,
    location := sanitizeToOutline locationIconRaw 15 }

/-- The deploy target host (deploy.sh). -/
def SERVER : String := "craftthecode.dev"

/-- The deploy user account (deploy.sh). -/
def USER : String := "hoanld"

/-- The remote publication path (deploy.sh). -/
def DEPLOY_PATH : String := "/usr/share/nginx/craftthecode.dev"

/-- The commands run by deploy.sh, in order, with shell variables substituted. -/
def deployScript : List (List String) :=
  [["npm", "i"],
   ["npm", "run", "build"],
   ["rsync", "-auvrP", "--delete", "--rsync-path=sudo rsync", "./dist/",
     USER ++ "@" ++ SERVER ++ ":" ++ DEPLOY_PATH ++ "/"]]

/-- The kinds of external invocations a deploy command can be. -/
inductive DeployKind where
  | install
  | build
  | sync
  | other
  deriving DecidableEq, Repr

/-- Classify one command line of the deploy script. -/
def classifyCmd (cmd : List String) : DeployKind :=
  match cmd with
  | "npm" :: "i" :: _ => .install
  | "npm" :: "run" :: "build" :: _ => .build
  | "rsync" :: _ => .sync
  | _ => .other

/-- The remote destination of a sync command (its last argument). -/
def syncTarget (cmd : List String) : Option String :=
  if classifyCmd cmd = .sync then cmd.getLast? else none

theorem not_ws_of_nameChar {c : Char} (h : nameChar c = true) : isWs c = false := by
  by_contra hw
  have hw2 : isWs c = true := by revert hw; cases isWs c <;> simp
  simp only [isWs, Bool.or_eq_true, beq_iff_eq] at hw2
  rcases hw2 with (((h1 | h1) | h1) | h1) <;> subst h1 <;> simp [nameChar] at h

theorem takeWhile_all_append {p : Char → Bool} {l1 : List Char} {b : Char} {l2 : List Char}
    (h1 : ∀ c ∈ l1, p c = true) (h2 : p b = false) :
    (l1 ++ b :: l2).takeWhile p = l1 := by
  induction l1 with
  | nil => simp [List.takeWhile_cons, h2]
  | cons a l ih =>
    have ha : p a = true := h1 a (by simp)
    simp only [List.cons_append, List.takeWhile_cons, ha, if_true]
    rw [ih (fun c hc => h1 c (by simp [hc]))]

theorem dropWhile_all_append {p : Char → Bool} {l1 : List Char} {b : Char} {l2 : List Char}
    (h1 : ∀ c ∈ l1, p c = true) (h2 : p b = false) :
    (l1 ++ b :: l2).dropWhile p = b :: l2 := by
  induction l1 with
  | nil => simp [List.dropWhile_cons, h2]
  | cons a l ih =>
    have ha : p a = true := h1 a (by simp)
    simp only [List.cons_append, List.dropWhile_cons, ha, if_true]
    exact ih (fun c hc => h1 c (by simp [hc]))

theorem dropWhile_cons_neg {p : Char → Bool} {c : Char} {l : List Char} (h : p c = false) :
    (c :: l).dropWhile p = c :: l := by
  simp [List.dropWhile_cons, h]

theorem isWsSpace : isWs ' ' = true := by decide

theorem parseAttrs_ser : ∀ (as : List Attr), as.all wfAttr = true →
    ∀ fuel, as.length < fuel → ∀ rest, attrStop rest →
    parseAttrs fuel (serAttrs as ++ rest) = some (as, rest) := by
  intro as
  induction as with
  | nil =>
    intro _ fuel hf rest hrest
    cases fuel with
    | zero => omega
    | succ f =>
      cases rest with
      | nil => rfl
      | cons c cs =>
        simp only [serAttrs, List.nil_append, parseAttrs, dropWhile_cons_neg hrest.1]
        simp [hrest.2]
  | cons a as ih =>
    intro hwf fuel hf rest hrest
    have hwa : wfAttr a = true := (List.all_eq_true.mp hwf) a (by simp)
    have hwas : as.all wfAttr = true := by
      rw [List.all_eq_true]
      intro x hx
      exact (List.all_eq_true.mp hwf) x (by simp [hx])
    have hgn : goodName a.name = true := by
      simp only [wfAttr, Bool.and_eq_true] at hwa
      exact hwa.1
    have hgv : goodValue a.value = true := by
      simp only [wfAttr, Bool.and_eq_true] at hwa
      exact hwa.2
    have hnm : ∀ c ∈ a.name.data, nameChar c = true := by
      intro c hc
      simp only [goodName, Bool.and_eq_true] at hgn
      exact (List.all_eq_true.mp hgn.2) c hc
    have hval : ∀ c ∈ a.value.data, valueChar c = true := by
      intro c hc
      exact (List.all_eq_true.mp hgv) c hc
    obtain ⟨c0, nm0, hnmeq⟩ : ∃ c0 nm0, a.name.data = c0 :: nm0 := by
      simp only [goodName, Bool.and_eq_true] at hgn
      cases hd : a.name.data with
      | nil => rw [hd] at hgn; simp at hgn
      | cons x xs => exact ⟨x, xs, rfl⟩
    cases fuel with
    | zero => omega
    | succ f =>
      have hc0 : nameChar c0 = true := hnm c0 (by rw [hnmeq]; simp)
      have hser : serAttrs (a :: as) ++ rest =
          ' ' :: (a.name.data ++
            ('=' :: '"' :: (a.value.data ++ ('"' :: (serAttrs as ++ rest))))) := by
        simp [serAttrs, serAttr]
      have hdrop1 : (a.name.data ++
            ('=' :: '"' :: (a.value.data ++ ('"' :: (serAttrs as ++ rest))))).dropWhile isWs =
          a.name.data ++
            ('=' :: '"' :: (a.value.data ++ ('"' :: (serAttrs as ++ rest)))) := by
        rw [hnmeq]
        exact dropWhile_cons_neg (not_ws_of_nameChar hc0)
      have hshape : a.name.data ++
            ('=' :: '"' :: (a.value.data ++ ('"' :: (serAttrs as ++ rest)))) =
          c0 :: (nm0 ++ ('=' :: '"' :: (a.value.data ++ ('"' :: (serAttrs as ++ rest))))) := by
        rw [hnmeq]; rfl
      have hnm0 : ∀ c ∈ nm0, nameChar c = true := by
        intro c hc
        exact hnm c (by rw [hnmeq]; simp [hc])
      have hdropnm : (nm0 ++
            ('=' :: '"' :: (a.value.data ++ ('"' :: (serAttrs as ++ rest))))).dropWhile nameChar =
          '=' :: '"' :: (a.value.data ++ ('"' :: (serAttrs as ++ rest))) :=
        dropWhile_all_append hnm0 (by decide)
      have htakenm : (nm0 ++
            ('=' :: '"' :: (a.value.data ++ ('"' :: (serAttrs as ++ rest))))).takeWhile nameChar =
          nm0 :=
        takeWhile_all_append hnm0 (by decide)
      have hdropval : (a.value.data ++ ('"' :: (serAttrs as ++ rest))).dropWhile valueChar =
          '"' :: (serAttrs as ++ rest) :=
        dropWhile_all_append hval (by decide)
      have htakeval : (a.value.data ++ ('"' :: (serAttrs as ++ rest))).takeWhile valueChar =
          a.value.data :=
        takeWhile_all_append hval (by decide)
      have hrec : parseAttrs f (serAttrs as ++ rest) = some (as, rest) :=
        ih hwas f (by simp at hf; omega) rest hrest
      rw [hser]
      simp only [parseAttrs, List.dropWhile_cons, isWsSpace, if_true]
      rw [hdrop1, hshape]
      simp only [hc0, if_true, List.takeWhile_cons, List.dropWhile_cons, hdropnm, htakenm,
        hdropval, htakeval, hrec]
      rw [← hnmeq]

theorem mk_data (s : String) : String.mk s.data = s := rfl

theorem goodName_chars {s : String} (h : goodName s = true) : ∀ c ∈ s.data, nameChar c = true := by
  simp only [goodName, Bool.and_eq_true] at h
  exact fun c hc => (List.all_eq_true.mp h.2) c hc

theorem goodName_cons {s : String} (h : goodName s = true) : ∃ c0 tl, s.data = c0 :: tl := by
  simp only [goodName, Bool.and_eq_true] at h
  cases hd : s.data with
  | nil => rw [hd] at h; simp at h
  | cons x xs => exact ⟨x, xs, rfl⟩

mutual

theorem parseNode_ser : (t : Node) → wfNode t = true → (fuel : Nat) → sizeN t < fuel →
    (rest : List Char) → parseNode fuel (serNode t ++ rest) = some (t, rest)
  | .elem tag as ns, hwf, fuel, hsz, rest => by
    simp only [wfNode, Bool.and_eq_true] at hwf
    obtain ⟨⟨htag, hattrs⟩, hns⟩ := hwf
    have htagchars := goodName_chars htag
    obtain ⟨c0, tl, htageq⟩ := goodName_cons htag
    cases fuel with
    | zero => simp [sizeN] at hsz
    | succ f =>
      have hser : serNode (.elem tag as ns) ++ rest =
          '<' :: (tag.data ++ (serAttrs as ++ ('>' :: (serList ns ++
            ('<' :: '/' :: (tag.data ++ ('>' :: rest))))))) := by
        simp [serNode]
      obtain ⟨b, l2, hX, hbn⟩ : ∃ b l2, serAttrs as ++ ('>' :: (serList ns ++
            ('<' :: '/' :: (tag.data ++ ('>' :: rest))))) = b :: l2 ∧ nameChar b = false := by
        cases as with
        | nil => exact ⟨'>', _, rfl, by decide⟩
        | cons a1 as1 =>
          refine ⟨' ', (a1.name.data ++ '=' :: '"' :: a1.value.data ++ ['"']) ++
            (serAttrs as1 ++ ('>' :: (serList ns ++
              ('<' :: '/' :: (tag.data ++ ('>' :: rest)))))), ?_, by decide⟩
          simp [serAttrs, serAttr]
      have htake : (tag.data ++ (serAttrs as ++ ('>' :: (serList ns ++
            ('<' :: '/' :: (tag.data ++ ('>' :: rest))))))).takeWhile nameChar = tag.data := by
        rw [hX]
        exact takeWhile_all_append htagchars hbn
      have hdrop : (tag.data ++ (serAttrs as ++ ('>' :: (serList ns ++
            ('<' :: '/' :: (tag.data ++ ('>' :: rest))))))).dropWhile nameChar =
          serAttrs as ++ ('>' :: (serList ns ++
            ('<' :: '/' :: (tag.data ++ ('>' :: rest))))) := by
        rw [hX]
        exact dropWhile_all_append htagchars hbn
      have hattrsres : parseAttrs f (serAttrs as ++ ('>' :: (serList ns ++
            ('<' :: '/' :: (tag.data ++ ('>' :: rest)))))) =
          some (as, '>' :: (serList ns ++ ('<' :: '/' :: (tag.data ++ ('>' :: rest))))) := by
        apply parseAttrs_ser as hattrs f (by simp [sizeN] at hsz; omega)
        exact ⟨by decide, by decide⟩
      have hchildren : parseChildren f (serList ns ++
            ('<' :: '/' :: (tag.data ++ ('>' :: rest)))) =
          some (ns, '<' :: '/' :: (tag.data ++ ('>' :: rest))) :=
        parseChildren_ser ns hns f (by simp [sizeN] at hsz; omega) _
      have htake2 : (tag.data ++ ('>' :: rest)).takeWhile nameChar = tag.data :=
        takeWhile_all_append htagchars (by decide)
      have hdrop2 : (tag.data ++ ('>' :: rest)).dropWhile nameChar = '>' :: rest :=
        dropWhile_all_append htagchars (by decide)
      rw [hser]
      simp only [parseNode, htake, hdrop, hattrsres, hchildren, htake2, hdrop2]
      rw [htageq]
      simp only [if_true, dropWhile_cons_neg (show isWs '>' = false by decide)]
      rw [← htageq]

theorem parseChildren_ser : (ts : NodeList) → wfList ts = true → (fuel : Nat) → sizeL ts < fuel →
    (rs : List Char) → parseChildren fuel (serList ts ++ ('<' :: '/' :: rs)) =
      some (ts, '<' :: '/' :: rs)
  | .nil, hwf, fuel, hsz, rs => by
    cases fuel with
    | zero => omega
    | succ f =>
      simp only [serList, List.nil_append, parseChildren,
        dropWhile_cons_neg (show isWs '<' = false by decide)]
      rw [if_pos trivial]
  | .cons n ns, hwf, fuel, hsz, rs => by
    simp only [wfList, Bool.and_eq_true] at hwf
    obtain ⟨hn, hns⟩ := hwf
    cases fuel with
    | zero => simp [sizeL] at hsz
    | succ f =>
      have hn2 := hn
      obtain ⟨tagn, asn, nsn⟩ := n
      have htagn : goodName tagn = true := by
        simp only [wfNode, Bool.and_eq_true] at hn2
        exact hn2.1.1
      obtain ⟨d0, dl, htagneq⟩ := goodName_cons htagn
      have hd0 : nameChar d0 = true := goodName_chars htagn d0 (by rw [htagneq]; simp)
      have hd0ne : d0 ≠ '/' := by
        intro h
        rw [h] at hd0
        exact absurd hd0 (by decide)
      have hZ : serNode (.elem tagn asn nsn) ++ (serList ns ++ ('<' :: '/' :: rs)) =
          '<' :: d0 :: ((dl ++ (serAttrs asn ++ '>' :: serList nsn ++
            '<' :: '/' :: tagn.data ++ ['>'])) ++ (serList ns ++ ('<' :: '/' :: rs))) := by
        simp [serNode, htagneq]
      have hassoc : serList (.cons (Node.elem tagn asn nsn) ns) ++ ('<' :: '/' :: rs) =
          serNode (.elem tagn asn nsn) ++ (serList ns ++ ('<' :: '/' :: rs)) := by
        simp [serList]
      have hnoderes : parseNode f (serNode (.elem tagn asn nsn) ++
            (serList ns ++ ('<' :: '/' :: rs))) =
          some (Node.elem tagn asn nsn, serList ns ++ ('<' :: '/' :: rs)) :=
        parseNode_ser _ hn2 f (by simp [sizeL] at hsz; omega) _
      have hchildres : parseChildren f (serList ns ++ ('<' :: '/' :: rs)) =
          some (ns, '<' :: '/' :: rs) :=
        parseChildren_ser ns hns f (by simp [sizeL] at hsz; omega) rs
      rw [hassoc, hZ]
      simp only [parseChildren, dropWhile_cons_neg (show isWs '<' = false by decide)]
      rw [if_neg hd0ne, ← hZ, hnoderes]
      simp only [hchildres]

end



theorem serAttrs_len : ∀ as : List Attr, as.length ≤ (serAttrs as).length := by
  intro as
  induction as with
  | nil => simp [serAttrs]
  | cons a as ih =>
    simp only [serAttrs, serAttr, List.length_append, List.length_cons]
    omega

mutual
theorem sizeN_le : (t : Node) → sizeN t + 4 ≤ (serNode t).length
  | .elem tag as ns => by
    have h1 := sizeL_le ns
    have h2 := serAttrs_len as
    simp only [serNode, sizeN, List.length_append, List.length_cons]
    omega
theorem sizeL_le : (ts : NodeList) → sizeL ts ≤ (serList ts).length
  | .nil => by simp [sizeL, serList]
  | .cons n ns => by
    have h1 := sizeN_le n
    have h2 := sizeL_le ns
    simp only [sizeL, serList, List.length_append]
    omega
end

theorem parseSvg_serialize (t : Node) (h : wfNode t = true) : parseSvg (serialize t) = some t := by
  obtain ⟨tag, as, ns⟩ := t
  have hdw : ((serialize (Node.elem tag as ns)).data).dropWhile isWs =
      serNode (.elem tag as ns) := by
    show (serNode (.elem tag as ns)).dropWhile isWs = _
    simp only [serNode]
    exact dropWhile_cons_neg (by decide)
  have hp : parseNode ((serNode (.elem tag as ns)).length + 1)
        (serNode (.elem tag as ns) ++ []) = some (.elem tag as ns, []) :=
    parseNode_ser _ h _ (by have := sizeN_le (.elem tag as ns); omega) []
  rw [List.append_nil] at hp
  simp only [parseSvg, hdw, hp]
  rfl

theorem parseAttrs_wf : ∀ fuel cs as rest, parseAttrs fuel cs = some (as, rest) →
    as.all wfAttr = true := by
  intro fuel
  induction fuel with
  | zero => intro cs as rest h; exact Option.noConfusion h
  | succ f ih =>
    intro cs as rest h
    simp only [parseAttrs] at h
    split at h
    · injection h with h1
      injection h1 with h2 h3
      subst h2
      rfl
    · rename_i c cs1 heq
      split at h
      · rename_i hnc
        split at h
        · rename_i cs3 heq2
          split at h
          · rename_i cs5 heq3
            split at h
            · rename_i as1 cs6 heq4
              injection h with h1
              injection h1 with h2 h3
              subst h2
              have hrest : as1.all wfAttr = true := ih _ _ _ heq4
              simp only [List.all_cons, Bool.and_eq_true]
              refine ⟨?_, hrest⟩
              simp only [wfAttr, goodName, goodValue, Bool.and_eq_true]
              refine ⟨⟨?_, ?_⟩, ?_⟩
              · simp [List.takeWhile_cons, hnc]
              · rw [List.all_eq_true]
                exact fun x hx => List.mem_takeWhile_imp hx
              · rw [List.all_eq_true]
                exact fun x hx => List.mem_takeWhile_imp hx
            · exact Option.noConfusion h
          · exact Option.noConfusion h
        · exact Option.noConfusion h
      · injection h with h1
        injection h1 with h2 h3
        subst h2
        rfl



theorem parse_wf : ∀ fuel,
    (∀ cs r, parseNode fuel cs = some r → wfNode r.1 = true) ∧
    (∀ cs r, parseChildren fuel cs = some r → wfList r.1 = true) := by
  intro fuel
  induction fuel with
  | zero =>
    constructor <;> intro cs r h <;> exact Option.noConfusion h
  | succ f ih =>
    constructor
    · intro cs r h
      simp only [parseNode] at h
      split at h
      · rename_i cs1
        split at h
        · exact Option.noConfusion h
        · rename_i c nm1 heqtake
          split at h
          · rename_i as cs3 heqattrs
            have hwfas : as.all wfAttr = true := parseAttrs_wf _ _ _ _ heqattrs
            have hgn : goodName (String.mk (c :: nm1)) = true := by
              simp only [goodName, Bool.and_eq_true]
              constructor
              · rfl
              · rw [List.all_eq_true]
                intro x hx
                rw [← heqtake] at hx
                exact List.mem_takeWhile_imp hx
            split at h
            · injection h with h1
              subst h1
              simp only [wfNode, Bool.and_eq_true]
              exact ⟨⟨hgn, hwfas⟩, rfl⟩
            · rename_i cs4
              split at h
              · rename_i ns cs5 heqch
                have hwfns : wfList ns = true := (ih.2 _ _ heqch)
                split at h
                · rename_i cs6
                  split at h
                  · split at h
                    · injection h with h1
                      subst h1
                      simp only [wfNode, Bool.and_eq_true]
                      exact ⟨⟨hgn, hwfas⟩, hwfns⟩
                    · exact Option.noConfusion h
                  · exact Option.noConfusion h
                · exact Option.noConfusion h
              · exact Option.noConfusion h
            · exact Option.noConfusion h
          · exact Option.noConfusion h
      · exact Option.noConfusion h
    · intro cs r h
      simp only [parseChildren] at h
      split at h
      · rename_i c2 cs2
        split at h
        · injection h with h1
          subst h1
          rfl
        · split at h
          · rename_i n cs3 heqn
            split at h
            · rename_i ns cs4 heqch
              injection h with h1
              subst h1
              simp only [wfList, Bool.and_eq_true]
              exact ⟨ih.1 _ _ heqn, ih.2 _ _ heqch⟩
            · exact Option.noConfusion h
          · exact Option.noConfusion h
      · exact Option.noConfusion h

theorem parseSvg_wf {s : String} {t : Node} (h : parseSvg s = some t) : wfNode t = true := by
  simp only [parseSvg] at h
  split at h
  · rename_i n rest heqn
    split at h
    · injection h with h1
      subst h1
      exact (parse_wf _).1 _ _ heqn
    · exact Option.noConfusion h
  · exact Option.noConfusion h



theorem digitChar_valueChar {n : Nat} (h : n < 10) : valueChar (digitChar n) = true := by
  interval_cases n <;> decide

theorem natChars_valueChar : ∀ fuel n c, c ∈ natChars fuel n → valueChar c = true := by
  intro fuel
  induction fuel with
  | zero => intro n c h; simp [natChars] at h
  | succ f ih =>
    intro n c h
    simp only [natChars] at h
    split at h
    · rename_i hlt
      simp only [List.mem_singleton] at h
      subst h
      exact digitChar_valueChar hlt
    · rw [List.mem_append] at h
      rcases h with h | h
      · exact ih _ _ h
      · simp only [List.mem_singleton] at h
        subst h
        exact digitChar_valueChar (Nat.mod_lt _ (by omega))

theorem wfAttr_fill : wfAttr ⟨"fill", "none"⟩ = true := by decide

theorem wfAttr_sw (w : Int) : wfAttr ⟨"stroke-width", natStr w.toNat⟩ = true := by
  simp only [wfAttr, goodName, goodValue, Bool.and_eq_true]
  refine ⟨by decide, ?_⟩
  rw [List.all_eq_true]
  intro c hc
  exact natChars_valueChar _ _ _ hc

theorem sanitizeAttrs_wf {as : List Attr} (h : as.all wfAttr = true) (w : Int) :
    (sanitizeAttrs w as).all wfAttr = true := by
  rw [List.all_eq_true]
  intro a ha
  simp only [sanitizeAttrs] at ha
  rw [List.mem_append] at ha
  rcases ha with ha | ha
  · rw [List.mem_filter] at ha
    exact (List.all_eq_true.mp h) a ha.1
  · simp only [List.mem_cons, List.mem_singleton] at ha
    rcases ha with ha | ha | ha
    · subst ha; exact wfAttr_fill
    · subst ha; exact wfAttr_sw w
    · simp at ha

mutual
theorem sanitize_wf : (t : Node) → wfNode t = true → (w : Int) → wfNode (sanitizeNode w t) = true
  | .elem tag as ns, h, w => by
    simp only [wfNode, Bool.and_eq_true] at h
    obtain ⟨⟨htag, has⟩, hns⟩ := h
    simp only [sanitizeNode, wfNode, Bool.and_eq_true]
    exact ⟨⟨htag, sanitizeAttrs_wf has w⟩, sanitizeL_wf ns hns w⟩
theorem sanitizeL_wf : (ts : NodeList) → wfList ts = true → (w : Int) →
    wfList (sanitizeList w ts) = true
  | .nil, _, _ => rfl
  | .cons n ns, h, w => by
    simp only [wfList, Bool.and_eq_true] at h
    simp only [sanitizeList, wfList, Bool.and_eq_true]
    exact ⟨sanitize_wf n h.1 w, sanitizeL_wf ns h.2 w⟩
end

theorem filter_idem (p : Attr → Bool) (l : List Attr) :
    (l.filter p).filter p = l.filter p := by
  rw [List.filter_filter]
  simp only [Bool.and_self]

theorem sanitizeAttrs_idem (w : Int) (as : List Attr) :
    sanitizeAttrs w (sanitizeAttrs w as) = sanitizeAttrs w as := by
  simp only [sanitizeAttrs, List.filter_append]
  rw [filter_idem]
  have h2 : List.filter (fun a => !(dropAttr a.name))
      [(⟨"fill", "none"⟩ : Attr), ⟨"stroke-width", natStr w.toNat⟩] = [] := rfl
  rw [h2, List.append_nil]

mutual
theorem sanitize_idem : (t : Node) → (w : Int) →
    sanitizeNode w (sanitizeNode w t) = sanitizeNode w t
  | .elem tag as ns, w => by
    simp only [sanitizeNode]
    rw [sanitizeAttrs_idem, sanitizeL_idem ns w]
theorem sanitizeL_idem : (ts : NodeList) → (w : Int) →
    sanitizeList w (sanitizeList w ts) = sanitizeList w ts
  | .nil, _ => rfl
  | .cons n ns, w => by
    simp only [sanitizeList]
    rw [sanitize_idem n w, sanitizeL_idem ns w]
end

theorem find?_filterpart_none (as : List Attr) (nm : String) (h : dropAttr nm = true) :
    (as.filter (fun a => !(dropAttr a.name))).find? (fun a => a.name == nm) = none := by
  rw [List.find?_eq_none]
  intro a ha hbe
  rw [List.mem_filter] at ha
  have heq : a.name = nm := by simpa using hbe
  rw [heq, h] at ha
  simp at ha

theorem getAttr_sanitize_fill (w : Int) : (t : Node) →
    getAttr (sanitizeNode w t) "fill" = some "none"
  | .elem tag as ns => by
    simp only [sanitizeNode, getAttr, sanitizeAttrs]
    rw [List.find?_append, find?_filterpart_none as "fill" (by decide)]
    rfl

theorem getAttr_sanitize_sw (w : Int) : (t : Node) →
    getAttr (sanitizeNode w t) "stroke-width" = some (natStr w.toNat)
  | .elem tag as ns => by
    simp only [sanitizeNode, getAttr, sanitizeAttrs]
    rw [List.find?_append, find?_filterpart_none as "stroke-width" (by decide)]
    rfl

theorem getAttr_sanitize_dropped (w : Int) (nm : String) (hd : dropAttr nm = true)
    (hne1 : ("fill" == nm) = false) (hne2 : ("stroke-width" == nm) = false) : (t : Node) →
    getAttr (sanitizeNode w t) nm = none
  | .elem tag as ns => by
    simp only [sanitizeNode, getAttr, sanitizeAttrs]
    rw [List.find?_append, find?_filterpart_none as nm hd]
    simp only [Option.none_or]
    rw [List.find?_cons_of_neg _ (by simpa using hne1), List.find?_cons_of_neg _ (by simpa using hne2)]
    rfl

mutual
theorem allElems_sanitize : (t : Node) → (w : Int) →
    allElems (sanitizeNode w t) = (allElems t).map (sanitizeNode w)
  | .elem tag as ns, w => by
    simp only [sanitizeNode, allElems, List.map_cons]
    rw [allElemsL_sanitize ns w]
theorem allElemsL_sanitize : (ts : NodeList) → (w : Int) →
    allElemsList (sanitizeList w ts) = (allElemsList ts).map (sanitizeNode w)
  | .nil, _ => rfl
  | .cons n ns, w => by
    simp only [sanitizeList, allElemsList, List.map_append]
    rw [allElems_sanitize n w, allElemsL_sanitize ns w]
end

theorem sanitizeToOutline_ok {raw : String} {w : Int} {out : String}
    (h : sanitizeToOutline raw w = .ok out) :
    ¬ w ≤ 0 ∧ ∃ t, parseSvg raw = some t ∧ out = serialize (sanitizeNode w t) := by
  simp only [sanitizeToOutline] at h
  split at h
  · exact Except.noConfusion h
  · rename_i hw
    split at h
    · exact Except.noConfusion h
    · rename_i t heq
      injection h with h1
      exact ⟨hw, t, heq, h1.symm⟩

theorem parse_output {raw : String} {w : Int} {out : String}
    (h : sanitizeToOutline raw w = .ok out) :
    ∃ t, parseSvg raw = some t ∧ parseSvg out = some (sanitizeNode w t) ∧
      out = serialize (sanitizeNode w t) := by
  obtain ⟨hw, t, hp, hout⟩ := sanitizeToOutline_ok h
  have hwf : wfNode t = true := parseSvg_wf hp
  have hwf2 : wfNode (sanitizeNode w t) = true := sanitize_wf t hwf w
  refine ⟨t, hp, ?_, hout⟩
  rw [hout]
  exact parseSvg_serialize _ hwf2

theorem filter_d_keep (as : List Attr) :
    (as.filter (fun a => !(dropAttr a.name))).filter (fun a => a.name == "d") =
    as.filter (fun a => a.name == "d") := by
  induction as with
  | nil => rfl
  | cons a as ih =>
    by_cases hd : a.name = "d"
    · have h1 : (!(dropAttr a.name)) = true := by rw [hd]; decide
      have h2 : (a.name == "d") = true := by rw [hd]; rfl
      simp only [List.filter_cons, h1, h2, if_true, ih]
    · have h2 : (a.name == "d") = false := by
        cases hb : a.name == "d"
        · rfl
        · exact absurd (by simpa using hb) hd
      cases hk : (!(dropAttr a.name)) <;>
        simp only [List.filter_cons, hk, h2, if_true, if_false, Bool.false_eq_true, ih]

theorem filter_d_sanitize (w : Int) (as : List Attr) :
    (sanitizeAttrs w as).filter (fun a => a.name == "d") =
    as.filter (fun a => a.name == "d") := by
  simp only [sanitizeAttrs, List.filter_append]
  have h2 : List.filter (fun a => a.name == "d")
      [(⟨"fill", "none"⟩ : Attr), ⟨"stroke-width", natStr w.toNat⟩] = [] := rfl
  rw [filter_d_keep, h2, List.append_nil]

mutual
theorem geom_sanitize : (t : Node) → (w : Int) → geomNode (sanitizeNode w t) = geomNode t
  | .elem tag as ns, w => by
    simp only [sanitizeNode, geomNode]
    rw [filter_d_sanitize, geomL_sanitize ns w]
theorem geomL_sanitize : (ts : NodeList) → (w : Int) → geomList (sanitizeList w ts) = geomList ts
  | .nil, _ => rfl
  | .cons n ns, w => by
    simp only [sanitizeList, geomList]
    rw [geom_sanitize n w, geomL_sanitize ns w]
end

theorem crossRefs_sanitize (w : Int) (t : Node) : crossRefs (sanitizeNode w t) = [] := by
  simp only [crossRefs, allElems_sanitize, List.filterMap_map, List.append_eq_nil]
  constructor <;>
    · rw [List.filterMap_eq_nil_iff]
      intro e he
      simp only [Function.comp_apply]
      first
      | exact getAttr_sanitize_dropped w "id" (by decide) (by decide) (by decide) e
      | exact getAttr_sanitize_dropped w "clip-path" (by decide) (by decide) (by decide) e

/-- C1: for every input markup accepted by sanitizeToOutline, every element
of the output carries fill forced to the value none and no style attribute,
so no fill color survives on the root or any descendant. -/
theorem claim1_fill_removed (raw : String) (w : Int) (out : String)
    (h : sanitizeToOutline raw w = .ok out) :
    ∃ t, parseSvg out = some t ∧ ∀ e ∈ allElems t,
      (getAttr e "fill" = none ∨ getAttr e "fill" = some "none") ∧
      getAttr e "style" = none := by
  obtain ⟨t0, hp, hpo, hout⟩ := parse_output h
  refine ⟨sanitizeNode w t0, hpo, ?_⟩
  intro e he
  rw [allElems_sanitize, List.mem_map] at he
  obtain ⟨e0, he0, rfl⟩ := he
  exact ⟨Or.inr (getAttr_sanitize_fill w e0),
    getAttr_sanitize_dropped w "style" (by decide) (by decide) (by decide) e0⟩

theorem claim1_witness :
    ∃ t, parseSvg "<svg fill=\"none\" stroke-width=\"4\"><path d=\"M0 0\" fill=\"none\" stroke-width=\"4\"></path></svg>" = some t ∧
      ∀ e ∈ allElems t,
        (getAttr e "fill" = none ∨ getAttr e "fill" = some "none") ∧
        getAttr e "style" = none :=
  claim1_fill_removed "<svg><path fill=\"#f00\" d=\"M0 0\"/></svg>" 4 _ rfl

/-- C2: after sanitization with a positive width, every element of the
output carries a stroke-width attribute equal to the supplied width,
whatever the original per-element widths were. -/
theorem claim2_uniform_stroke (raw : String) (w : Int) (out : String)
    (_hpos : 0 < w) (h : sanitizeToOutline raw w = .ok out) :
    ∃ t, parseSvg out = some t ∧
      ∀ e ∈ allElems t, getAttr e "stroke-width" = some (natStr w.toNat) := by
  obtain ⟨t0, hp, hpo, hout⟩ := parse_output h
  refine ⟨sanitizeNode w t0, hpo, ?_⟩
  intro e he
  rw [allElems_sanitize, List.mem_map] at he
  obtain ⟨e0, he0, rfl⟩ := he
  exact getAttr_sanitize_sw w e0

set_option maxRecDepth 20000 in
theorem claim2_witness :
    ∃ t, parseSvg "<svg viewBox=\"0 0 24 24\" fill=\"none\" stroke-width=\"15\"><path d=\"M4 7h16v13H4z\" fill=\"none\" stroke-width=\"15\"></path><path d=\"M9 7V5h6v2\" fill=\"none\" stroke-width=\"15\"></path></svg>" = some t ∧
      ∀ e ∈ allElems t, getAttr e "stroke-width" = some (natStr (15 : Int).toNat) :=
  claim2_uniform_stroke jobIconRaw 15 _ (by decide) rfl

/-- C3: sanitizeToOutline rejects non-positive widths with InvalidParameter,
rejects unparseable markup with MalformedMarkup producing no partial output,
and succeeds on every well-formed markup with a positive width; the spec's
two example failures behave as stated. -/
theorem claim3_error_contract :
    (∀ raw w, w ≤ 0 → sanitizeToOutline raw w = .error .invalidParameter) ∧
    (∀ raw w, 0 < w → parseSvg raw = none →
      sanitizeToOutline raw w = .error .malformedMarkup) ∧
    (∀ raw w t, 0 < w → parseSvg raw = some t →
      ∃ out, sanitizeToOutline raw w = .ok out) ∧
    sanitizeToOutline "<svg><path d=\"M0 0\"" 15 = .error .malformedMarkup ∧
    sanitizeToOutline "<svg><path d=\"M0 0L10 10\"/></svg>" (-1) = .error .invalidParameter := by
  refine ⟨?_, ?_, ?_, rfl, rfl⟩
  · intro raw w hw
    simp [sanitizeToOutline, hw]
  · intro raw w hw hp
    simp [sanitizeToOutline, hp, show ¬ w ≤ 0 by omega]
  · intro raw w t hw hp
    refine ⟨serialize (sanitizeNode w t), ?_⟩
    simp [sanitizeToOutline, hp, show ¬ w ≤ 0 by omega]

theorem claim3_witness :
    sanitizeToOutline "<svg></svg>" 0 = .error .invalidParameter ∧
    sanitizeToOutline "nope" 3 = .error .malformedMarkup ∧
    ∃ out, sanitizeToOutline "<svg></svg>" 3 = .ok out :=
  ⟨claim3_error_contract.1 "<svg></svg>" 0 (by decide),
   claim3_error_contract.2.1 "nope" 3 (by decide) rfl,
   claim3_error_contract.2.2.1 "<svg></svg>" 3 (.elem "svg" [] .nil) (by decide) rfl⟩

/-- C4: sanitization preserves the element structure and the geometric path
data of the input, and on the spec's example yields d unchanged, fill gone,
and stroke-width 15. -/
theorem claim4_structure_preserved :
    (∀ raw w out t, sanitizeToOutline raw w = .ok out → parseSvg raw = some t →
      ∃ t2, parseSvg out = some t2 ∧ geometry t2 = geometry t) ∧
    sanitizeToOutline "<svg><path fill=\"#000\" stroke-width=\"2\" d=\"M0 0L10 10\"/></svg>" 15 =
      .ok "<svg fill=\"none\" stroke-width=\"15\"><path d=\"M0 0L10 10\" fill=\"none\" stroke-width=\"15\"></path></svg>" ∧
    parseSvg "<svg fill=\"none\" stroke-width=\"15\"><path d=\"M0 0L10 10\" fill=\"none\" stroke-width=\"15\"></path></svg>" =
      some (.elem "svg" [⟨"fill", "none"⟩, ⟨"stroke-width", "15"⟩]
        (.cons (.elem "path"
          [⟨"d", "M0 0L10 10"⟩, ⟨"fill", "none"⟩, ⟨"stroke-width", "15"⟩] .nil) .nil)) := by
  refine ⟨?_, rfl, rfl⟩
  intro raw w out t h hp
  obtain ⟨t0, hp0, hpo, hout⟩ := parse_output h
  rw [hp0] at hp
  injection hp with hp
  subst hp
  refine ⟨sanitizeNode w t0, hpo, ?_⟩
  simp only [geometry, geom_sanitize]

theorem claim4_witness :
    ∃ t2, parseSvg "<svg fill=\"none\" stroke-width=\"15\"><path d=\"M0 0L10 10\" fill=\"none\" stroke-width=\"15\"></path></svg>" = some t2 ∧
      geometry t2 = geometry (.elem "svg" []
        (.cons (.elem "path"
          [⟨"fill", "#000"⟩, ⟨"stroke-width", "2"⟩, ⟨"d", "M0 0L10 10"⟩] .nil) .nil)) :=
  claim4_structure_preserved.1
    "<svg><path fill=\"#000\" stroke-width=\"2\" d=\"M0 0L10 10\"/></svg>" 15 _ _ rfl rfl

/-- C5: sanitizeToOutline is pure and deterministic; equal raw markup and
equal stroke width always give the same result. -/
theorem claim5_pure_deterministic (raw1 raw2 : String) (w1 w2 : Int)
    (hr : raw1 = raw2) (hw : w1 = w2) :
    sanitizeToOutline raw1 w1 = sanitizeToOutline raw2 w2 := by
  rw [hr, hw]

theorem claim5_witness :
    sanitizeToOutline "<svg></svg>" 7 = sanitizeToOutline "<svg></svg>" 7 :=
  claim5_pure_deterministic "<svg></svg>" "<svg></svg>" 7 7 rfl rfl

/-- C6: sanitization is idempotent; re-sanitizing an output with the same
width returns that output byte for byte. -/
theorem claim6_idempotent (raw : String) (w : Int) (out : String)
    (h : sanitizeToOutline raw w = .ok out) :
    sanitizeToOutline out w = .ok out := by
  obtain ⟨hw, t, hp, hout⟩ := sanitizeToOutline_ok h
  have hwf : wfNode t = true := parseSvg_wf hp
  have hwf2 := sanitize_wf t hwf w
  have hpo : parseSvg out = some (sanitizeNode w t) := by
    rw [hout]
    exact parseSvg_serialize _ hwf2
  simp only [sanitizeToOutline, if_neg hw, hpo]
  rw [sanitize_idem, ← hout]

theorem claim6_witness :
    sanitizeToOutline "<svg fill=\"none\" stroke-width=\"15\"><path d=\"M0 0L10 10\" fill=\"none\" stroke-width=\"15\"></path></svg>" 15 =
      .ok "<svg fill=\"none\" stroke-width=\"15\"><path d=\"M0 0L10 10\" fill=\"none\" stroke-width=\"15\"></path></svg>" :=
  claim6_idempotent "<svg><path fill=\"#000\" stroke-width=\"2\" d=\"M0 0L10 10\"/></svg>" 15 _ rfl

/-- C7: the outputs for two distinct inputs contain no identifier or
clip-path cross-reference at all, so concatenating them yields no duplicate
identifier usable for cross-referencing. -/
theorem claim7_no_cross_refs (m1 m2 : String) (w : Int) (o1 o2 : String)
    (_hne : m1 ≠ m2)
    (h1 : sanitizeToOutline m1 w = .ok o1) (h2 : sanitizeToOutline m2 w = .ok o2) :
    ∃ t1 t2, parseSvg o1 = some t1 ∧ parseSvg o2 = some t2 ∧
      crossRefs t1 ++ crossRefs t2 = [] := by
  obtain ⟨ta, hpa, hpo1, houta⟩ := parse_output h1
  obtain ⟨tb, hpb, hpo2, houtb⟩ := parse_output h2
  refine ⟨sanitizeNode w ta, sanitizeNode w tb, hpo1, hpo2, ?_⟩
  rw [crossRefs_sanitize, crossRefs_sanitize]
  rfl

set_option maxRecDepth 20000 in
theorem claim7_witness :
    ∃ t1 t2,
      parseSvg "<svg viewBox=\"0 0 24 24\" fill=\"none\" stroke-width=\"15\"><path d=\"M4 7h16v13H4z\" fill=\"none\" stroke-width=\"15\"></path><path d=\"M9 7V5h6v2\" fill=\"none\" stroke-width=\"15\"></path></svg>" = some t1 ∧
      parseSvg "<svg viewBox=\"0 0 24 24\" fill=\"none\" stroke-width=\"15\"><path d=\"M5 21V5h14v16\" fill=\"none\" stroke-width=\"15\"></path><path d=\"M9 9h2v2H9z\" fill=\"none\" stroke-width=\"15\"></path></svg>" = some t2 ∧
      crossRefs t1 ++ crossRefs t2 = [] :=
  claim7_no_cross_refs jobIconRaw companyIconRaw 15 _ _ (by decide) rfl rfl

set_option maxRecDepth 20000 in
/-- C8 counterexample: the job entry of workIcons is not the imported raw
icon passed through unchanged; the module applies sanitizeToOutline to it. -/
theorem claim8_counterexample : workIcons.job ≠ Except.ok jobIconRaw := by
  decide

set_option maxRecDepth 20000 in
/-- C8 (amended): the collections hand their values to the templating layer
as declared or imported, including each project's icon field, except that
the three workIcons entries are computed from the imported raw icons by
sanitizeToOutline with stroke width 15 at module load. -/
theorem claim8_data_passthrough :
    projects.map (fun p => p.icon) =
      [MenuWiseIcon, YourRentalsIcon, OddleIcon, TagManagerIcon, ZaloIcon, TagManagerIcon] ∧
    workIcons.job = sanitizeToOutline jobIconRaw 15 ∧
    workIcons.company = sanitizeToOutline companyIconRaw 15 ∧
    workIcons.location = sanitizeToOutline locationIconRaw 15 ∧
    studies.map (fun s => s.institution) =
      ["Hanoi University of Science and Technology (HUST)"] ∧
    work.map (fun v => v.company) =
      ["MenuWise", "Your.Rentals", "Fetch Technology Hanoi", "Videa Edtech", "Zalo"] :=
  ⟨rfl, rfl, rfl, rfl, rfl, rfl⟩

set_option maxRecDepth 20000 in
/-- C9: every in-repository call site of sanitizeToOutline passes the
literal stroke width 15, which is positive, and at width 15 the
InvalidParameter branch is unreachable; workIcons is a constant computed
once from those three calls. -/
theorem claim9_call_sites :
    workIcons.job = sanitizeToOutline jobIconRaw 15 ∧
    workIcons.company = sanitizeToOutline companyIconRaw 15 ∧
    workIcons.location = sanitizeToOutline locationIconRaw 15 ∧
    (0 : Int) < 15 ∧
    (∀ raw, sanitizeToOutline raw 15 ≠ .error .invalidParameter) := by
  refine ⟨rfl, rfl, rfl, by decide, ?_⟩
  intro raw h
  simp only [sanitizeToOutline] at h
  rw [if_neg (by omega)] at h
  split at h
  · exact absurd (Except.error.inj h) (by decide)
  · exact Except.noConfusion h

/-- C10: the deploy script runs exactly a package install, a build, and a
remote file synchronization, in that order, publishing to the fixed
user, host and path. -/
theorem claim10_deploy_script :
    deployScript.map classifyCmd = [.install, .build, .sync] ∧
    deployScript.filterMap syncTarget =
      ["hoanld@craftthecode.dev:/usr/share/nginx/craftthecode.dev/"] ∧
    deployScript.length = 3 :=
  ⟨rfl, rfl, rfl⟩

end Portfolio
